import Mathlib

/-!
Shallow embedding of the forms-entitlement-api admin-synchronization core:
the distributed lock repository (src/repositories/lock-repository.js), the
role-to-scope mapping (src/repositories/scopes.js, src/repositories/roles.js),
the admin reconciliation engine (src/services/user.js) built on the user
repository (src/repositories/user-repository.js), and the scheduler service
(src/services/scheduler.js), together with theorems settling the
specification claims about them.

MongoDB collections are modelled as lists of documents, asynchronous calls
as explicit state passing, thrown JavaScript errors as Option/Except values,
and external faults (store connectivity failures, transaction-mechanism
failures, the external cron validator) as explicit environment parameters.
-/

namespace EntitlementApi

/-! ## Lock repository (src/repositories/lock-repository.js) -/

/-- A document in the sync-locks collection. -/
structure LockRecord where
  lockName : String
  lockId : String
  createdAt : Nat
  expiresAt : Nat
deriving DecidableEq, Repr

/-- The sync-locks collection. -/
abbrev LockStore := List LockRecord

/-- A MongoDB server error, identified by its numeric code. -/
structure MongoError where
  code : Int
deriving DecidableEq, Repr

/-- The mongo duplicate-key error code checked by acquireLock. -/
def DUPLICATE_KEY_ERROR_CODE : Int := 11000

/-- Environment of one lock-repository call: the clock reading and the store
faults injected for this call (a generic insert rejection with a given error
code, and a deleteOne rejection). -/
structure LockEnv where
  now : Nat
  insertFault : Option Int := none
  deleteFault : Bool := false

/-- insertOne on the sync-locks collection, whose unique index on lockName
rejects a second record with the same lockName with error code 11000. -/
def lockInsertOne (env : LockEnv) (store : LockStore) (doc : LockRecord) :
    Except MongoError LockStore :=
  match env.insertFault with
  | some c => Except.error { code := c }
  | none =>
      if store.any (fun r => r.lockName == doc.lockName) then
        Except.error { code := DUPLICATE_KEY_ERROR_CODE }
      else
        Except.ok (store ++ [doc])

/-- acquireLock: insert a lock document; a duplicate-key rejection means the
lock is held (return false); any other rejection is logged and rethrown. -/
def acquireLock (env : LockEnv) (store : LockStore) (lockName lockId : String)
    (timeoutMinutes : Nat := 30) : Except MongoError (LockStore × Bool) :=
  match lockInsertOne env store
      { lockName := lockName, lockId := lockId, createdAt := env.now,
        expiresAt := env.now + timeoutMinutes * 60 * 1000 } with
  | Except.ok store' => Except.ok (store', true)
  | Except.error e =>
      if e.code == DUPLICATE_KEY_ERROR_CODE then Except.ok (store, false)
      else Except.error e

/-- deleteOne semantics: remove the first document matching the predicate,
returning the new collection and the deletedCount (0 or 1). -/
def removeFirst (p : LockRecord → Bool) : LockStore → LockStore × Nat
  | [] => ([], 0)
  | r :: rs =>
      if p r then (rs, 1)
      else
        let res := removeFirst p rs
        (r :: res.1, res.2)

/-- releaseLock: deleteOne by both lockName and lockId; report whether a
document was deleted; a store error is logged as a warning and reported as
false rather than rethrown. -/
def releaseLock (env : LockEnv) (store : LockStore) (lockName lockId : String) :
    LockStore × Bool :=
  if env.deleteFault then
    (store, false)
  else
    let res := removeFirst (fun r => r.lockName == lockName && r.lockId == lockId) store
    (res.1, decide (res.2 > 0))

/-- Outcome of a withLock call: returned null (lock busy), returned the
function result, rethrew the function error, or rethrew an acquire error. -/
inductive WithLockOutcome (α : Type) where
  | busy : WithLockOutcome α
  | ok : α → WithLockOutcome α
  | fnError : String → WithLockOutcome α
  | acquireError : MongoError → WithLockOutcome α
deriving DecidableEq, Repr

/-- Which calls withLock actually issued: whether fn was invoked and whether
a delete of the lock record was attempted. -/
structure WithLockTrace where
  fnInvoked : Bool
  deleteAttempted : Bool
deriving DecidableEq, Repr

/-- withLock: acquire, run fn inside try, release in the finally block, then
return fn result or rethrow its error; null when the lock was not acquired. -/
def withLock (env : LockEnv) (store : LockStore) (lockName lockId : String)
    (fn : Except String α) (timeoutMinutes : Nat := 30) :
    LockStore × WithLockOutcome α × WithLockTrace :=
  match acquireLock env store lockName lockId timeoutMinutes with
  | Except.error e => (store, WithLockOutcome.acquireError e, ⟨false, false⟩)
  | Except.ok (store1, acquired) =>
      if acquired then
        let outcome := fn
        let rel := releaseLock env store1 lockName lockId
        match outcome with
        | Except.ok a => (rel.1, WithLockOutcome.ok a, ⟨true, true⟩)
        | Except.error e => (rel.1, WithLockOutcome.fnError e, ⟨true, true⟩)
      else
        (store1, WithLockOutcome.busy, ⟨false, false⟩)

/-! ## Roles and scopes (src/repositories/roles.js, src/repositories/scopes.js) -/

/-- Role tags from the Roles enumeration. -/
def Roles.Admin : String := "admin"

/-- Role tag for form creators. -/
def Roles.FormCreator : String := "form-creator"

/-- Scope tag values from the Scopes enumeration, in declaration order. -/
def scopesEntries : List String :=
  ["form-delete", "form-edit", "form-read", "form-publish",
   "user-create", "user-delete", "user-edit"]

/-- RoleScopes lookup: admin maps to every Scopes entry, form-creator to
form-read and form-edit; an unknown role yields [] (the ?? [] fallback). -/
def RoleScopes (role : String) : List String :=
  if role = Roles.Admin then scopesEntries
  else if role = Roles.FormCreator then ["form-read", "form-edit"]
  else []

/-- Adding one element to a JS Set: deduplicating, insertion order kept. -/
def setAdd (acc : List String) (s : String) : List String :=
  if s ∈ acc then acc else acc ++ [s]

/-- mapScopesToRoles: collect the scopes of every role into a Set and return
the Set as an array. -/
def mapScopesToRoles (roles : List String) : List String :=
  roles.foldl (fun acc role => (RoleScopes role).foldl setAdd acc) []

/-! ## User repository and reconciliation engine (src/repositories/user-repository.js, src/services/user.js) -/

/-- A directory (Azure AD) group member. -/
structure AzureUser where
  id : String
  displayName : String
  email : String
deriving DecidableEq, Repr

/-- An entitlement record in the users collection. -/
structure UserEntitlement where
  userId : String
  roles : List String
  scopes : List String
  email : Option String := none
  displayName : Option String := none
deriving DecidableEq, Repr

/-- The users collection. -/
abbrev UserStore := List UserEntitlement

/-- A write call issued against the user repository, with its target userId. -/
inductive WriteOp where
  | createOp : String → WriteOp
  | updateOp : String → WriteOp
  | removeOp : String → WriteOp
deriving DecidableEq, Repr

/-- The userId a write call targets. -/
def WriteOp.target : WriteOp → String
  | createOp u => u
  | updateOp u => u
  | removeOp u => u

/-- State threaded through one reconciliation run: the users collection and
the list of write calls issued so far. -/
structure RunState where
  store : UserStore
  log : List WriteOp
deriving DecidableEq, Repr

/-- Errors thrown by the user repository or the transaction machinery. -/
inductive UserError where
  | boomConflict
  | boomBadRequest
  | storeFailure : String → UserError
  | txnError
deriving DecidableEq, Repr

/-- Faults injected into one reconciliation run: userIds whose create/update
store calls fail, and whether the transaction mechanism itself fails. -/
structure SyncEnv where
  failUserIds : List String := []
  txnFault : Bool := false

/-- The $set applied by the repository update: it sets userId, roles and
scopes and leaves the remaining fields of the document in place. -/
def applySet (r : UserEntitlement) (userId : String) (roles scopes : List String) :
    UserEntitlement :=
  { r with userId := userId, roles := roles, scopes := scopes }

/-- updateOne semantics: apply f to the first document whose userId matches,
returning the new collection, the matchedCount and the modifiedCount. -/
def updateFirst (userId : String) (f : UserEntitlement → UserEntitlement) :
    UserStore → UserStore × Nat × Nat
  | [] => ([], 0, 0)
  | r :: rs =>
      if r.userId = userId then
        let r' := f r
        (r' :: rs, 1, if r' = r then 0 else 1)
      else
        let res := updateFirst userId f rs
        (r :: res.1, res.2.1, res.2.2)

/-- Repository create: insertOne; the unique index on userId turns a
duplicate into a Boom conflict; an injected store fault is rethrown. -/
def repoCreate (env : SyncEnv) (st : RunState) (document : UserEntitlement) :
    RunState × Option UserError :=
  let st1 : RunState := { st with log := st.log ++ [WriteOp.createOp document.userId] }
  if document.userId ∈ env.failUserIds then
    (st1, some (UserError.storeFailure document.userId))
  else if st1.store.any (fun r => r.userId == document.userId) then
    (st1, some UserError.boomConflict)
  else
    ({ st1 with store := st1.store ++ [document] }, none)

/-- Repository update: updateOne with a $set of the user document, throwing
Boom badRequest unless the modified count is exactly 1. -/
def repoUpdate (env : SyncEnv) (st : RunState) (userId : String)
    (document : UserEntitlement) : RunState × Option UserError :=
  let st1 : RunState := { st with log := st.log ++ [WriteOp.updateOp userId] }
  if userId ∈ env.failUserIds then
    (st1, some (UserError.storeFailure userId))
  else
    let res := updateFirst userId
      (fun r => applySet r document.userId document.roles document.scopes) st1.store
    if res.2.2 = 1 then
      ({ st1 with store := res.1 }, none)
    else
      ({ st1 with store := res.1 }, some UserError.boomBadRequest)

/-- createUserInternal: build the document with derived scopes and the
directory email/displayName when truthy, then create it. -/
def createUserInternal (env : SyncEnv) (st : RunState) (userId : String)
    (roles : List String) (email displayName : String) : RunState × Option UserError :=
  repoCreate env st
    { userId := userId, roles := roles, scopes := mapScopesToRoles roles,
      email := if email = "" then none else some email,
      displayName := if displayName = "" then none else some displayName }

/-- updateUserInternal: build the document with derived scopes, then update. -/
def updateUserInternal (env : SyncEnv) (st : RunState) (userId : String)
    (roles : List String) : RunState × Option UserError :=
  repoUpdate env st userId
    { userId := userId, roles := roles, scopes := mapScopesToRoles roles }

/-- Lookup in the prefetched Map of existing users keyed by userId. -/
def mapLookup (existingUsers : UserStore) (id : String) : Option UserEntitlement :=
  existingUsers.find? (fun u => u.userId == id)

/-- processAdminUser: if the member has an existing record whose roles are
not exactly the single admin role, overwrite its roles with [admin]; if the
record already holds exactly [admin], do nothing; if there is no record,
create one with the admin role. -/
def processAdminUser (env : SyncEnv) (st : RunState) (member : AzureUser)
    (existingUsers : UserStore) : RunState × Option UserError :=
  match mapLookup existingUsers member.id with
  | some existingUser =>
      let userRoles := existingUser.roles
      if userRoles.length ≠ 1 ∨ Roles.Admin ∉ userRoles then
        updateUserInternal env st member.id [Roles.Admin]
      else
        (st, none)
  | none =>
      createUserInternal env st member.id [Roles.Admin] member.email member.displayName

/-- The prefetched index of existing users: records with a truthy userId. -/
def buildExistingUsersMap (allUsers : UserStore) : UserStore :=
  allUsers.filter (fun u => u.userId ≠ "")

/-- The transaction body of processAllAdminUsers: process each member in
order, catching and logging a per-member failure so the loop continues. -/
def syncBody (env : SyncEnv) (store : UserStore) (groupMembers : List AzureUser) :
    RunState :=
  let existingUsersMap := buildExistingUsersMap store
  groupMembers.foldl
    (fun st member => (processAdminUser env st member existingUsersMap).1)
    { store := store, log := [] }

/-- processAllAdminUsers: prefetch all users, then run the per-member loop
inside one transaction; a transaction-mechanism failure aborts the run and
propagates, rolling the writes back. -/
def processAllAdminUsers (env : SyncEnv) (store : UserStore)
    (groupMembers : List AzureUser) : Except UserError RunState :=
  if env.txnFault then
    Except.error UserError.txnError
  else
    Except.ok (syncBody env store groupMembers)

/-- Invariant carried through a reconciliation run, relative to the store S
it started from: userIds stay unique, every starting record's userId still
resolves to a record, and every record either was there at the start or
carries exactly the admin role. -/
def SyncInv (S : UserStore) (st : RunState) : Prop :=
  (st.store.map (fun u => u.userId)).Nodup ∧
  (∀ u ∈ S, ∃ u' ∈ st.store, u'.userId = u.userId) ∧
  (∀ u' ∈ st.store, u' ∈ S ∨ u'.roles = [Roles.Admin])

/-- The given userId resolves to a record holding exactly the admin role. -/
def AdminRecorded (st : RunState) (id : String) : Prop :=
  ∃ u' ∈ st.store, u'.userId = id ∧ u'.roles = [Roles.Admin]

/-! ## Scheduler service (src/services/scheduler.js) -/

/-- A registered task: its cron expression, the outcome its underlying
function produces when invoked, and its running flag. The stored
taskFunction is the executeScheduledTask wrapper over that function. -/
structure TaskData where
  cronExpression : String
  fnOutcome : Except String Unit
  isRunning : Bool
deriving Repr

/-- The process-wide scheduler registry. -/
structure SchedulerState where
  tasks : List (String × TaskData)
  isInitialized : Bool
deriving Repr

/-- The executeScheduledTask wrapper: await the task function, catch any
rejection and log it. Returns the wrapper outcome and whether a task error
was caught and logged. -/
def executeScheduledTask (fnOutcome : Except String Unit) : Except String Unit × Bool :=
  match fnOutcome with
  | Except.ok _ => (Except.ok (), false)
  | Except.error _ => (Except.ok (), true)

/-- The external cron library interface: node-cron validate. -/
structure SchedulerEnv where
  cronValid : String → Bool

/-- scheduleTask: refuse a duplicate name or an invalid cron expression with
false; otherwise register the wrapped task stopped and, when runImmediately,
fire one wrapped invocation. Returns the new state, the success flag and
whether the immediate invocation was fired. -/
def scheduleTask (env : SchedulerEnv) (st : SchedulerState)
    (name cronExpression : String) (fnOutcome : Except String Unit)
    (runImmediately : Bool := false) : SchedulerState × Bool × Bool :=
  if st.tasks.any (fun t => t.1 == name) then
    (st, false, false)
  else if ¬ env.cronValid cronExpression then
    (st, false, false)
  else
    let st' : SchedulerState :=
      { st with tasks := st.tasks ++
          [(name, { cronExpression := cronExpression, fnOutcome := fnOutcome,
                    isRunning := false })] }
    (st', true, runImmediately)

/-- triggerTask: look the task up and await one invocation of its stored
wrapped function; false for an unknown name; the catch around the
invocation returns false if the wrapped call rejects. Returns the result
and whether a task error was logged. -/
def triggerTask (st : SchedulerState) (name : String) : Bool × Bool :=
  match st.tasks.find? (fun t => t.1 == name) with
  | none => (false, false)
  | some t =>
      match executeScheduledTask t.2.fnOutcome with
      | (Except.ok _, logged) => (true, logged)
      | (Except.error _, _) => (false, true)

/-- Configuration consumed by initialiseAdminUserSync. -/
structure SyncConfig where
  adminUsersEnabled : Bool
  adminUsersCronSchedule : String

/-- What initialiseAdminUserSync returned: null, or the scheduler instance
(carrying whether the immediate run was fired at registration). -/
inductive InitSyncOutcome where
  | nullReturned
  | schedulerReturned : Bool → InitSyncOutcome
deriving DecidableEq, Repr

/-- initialiseAdminUserSync: null when sync is disabled; otherwise register
the admin-user-sync task with runImmediately set, throwing when the
registration fails. -/
def initialiseAdminUserSync (env : SchedulerEnv) (cfg : SyncConfig)
    (st : SchedulerState) (syncFnOutcome : Except String Unit) :
    Except String (SchedulerState × InitSyncOutcome) :=
  if ¬ cfg.adminUsersEnabled then
    Except.ok (st, InitSyncOutcome.nullReturned)
  else
    let res := scheduleTask env st "admin-user-sync" cfg.adminUsersCronSchedule
      syncFnOutcome true
    if res.2.1 then
      Except.ok (res.1, InitSyncOutcome.schedulerReturned res.2.2)
    else
      Except.error "Failed to initialize admin user sync scheduler"

/-! ## Helper lemmas about the lock store -/

theorem removeFirst_all_false {p : LockRecord → Bool} :
    ∀ {l : LockStore}, (∀ r ∈ l, p r = false) → removeFirst p l = (l, 0) := by
  intro l h
  induction l with
  | nil => rfl
  | cons r rs ih =>
      have hr : p r = false := h r (List.mem_cons_self r rs)
      have hrs : ∀ x ∈ rs, p x = false := fun x hx => h x (List.mem_cons_of_mem r hx)
      simp [removeFirst, hr, ih hrs]

theorem removeFirst_append_hit {p : LockRecord → Bool} {r : LockRecord} :
    ∀ {l : LockStore}, (∀ x ∈ l, p x = false) → p r = true →
      removeFirst p (l ++ [r]) = (l, 1) := by
  intro l h hr
  induction l with
  | nil => simp [removeFirst, hr]
  | cons x xs ih =>
      have hx : p x = false := h x (List.mem_cons_self x xs)
      have hxs : ∀ y ∈ xs, p y = false := fun y hy => h y (List.mem_cons_of_mem x hy)
      simp [removeFirst, hx, ih hxs]

theorem mem_removeFirst_of_false {p : LockRecord → Bool} {r : LockRecord} :
    ∀ {l : LockStore}, r ∈ l → p r = false → r ∈ (removeFirst p l).1 := by
  intro l hmem hr
  induction l with
  | nil => cases hmem
  | cons x xs ih =>
      by_cases hx : p x = true
      · rcases List.mem_cons.mp hmem with h | h
        · subst h; rw [hr] at hx; cases hx
        · simp [removeFirst, hx]; exact h
      · have hx' : p x = false := Bool.eq_false_iff.mpr hx
        rcases List.mem_cons.mp hmem with h | h
        · subst h; simp [removeFirst, hx']
        · simp [removeFirst, hx']
          exact Or.inr (ih h)

theorem removeFirst_subset {p : LockRecord → Bool} :
    ∀ {l : LockStore} {r : LockRecord}, r ∈ (removeFirst p l).1 → r ∈ l := by
  intro l
  induction l with
  | nil => intro r h; simp [removeFirst] at h
  | cons x xs ih =>
      intro r h
      by_cases hx : p x = true
      · simp [removeFirst, hx] at h
        exact List.mem_cons_of_mem x h
      · have hx' : p x = false := Bool.eq_false_iff.mpr hx
        simp [removeFirst, hx'] at h
        rcases h with h | h
        · exact h ▸ List.mem_cons_self x xs
        · exact List.mem_cons_of_mem x (ih h)

/-- C2: with the lock free and the release store call healthy, withLock runs
fn, deletes the lock record whatever fn's outcome, and hands fn's result or
error back; the lock record for lockName is absent from the final store. -/
theorem withLock_unconditional_release {α : Type} (env : LockEnv) (store : LockStore)
    (lockName lockId : String) (fn : Except String α) (tm : Nat)
    (hins : env.insertFault = none)
    (hfree : ∀ r ∈ store, r.lockName ≠ lockName)
    (hdel : env.deleteFault = false) :
    withLock env store lockName lockId fn tm =
      (store,
        (match fn with
         | Except.ok a => WithLockOutcome.ok a
         | Except.error e => WithLockOutcome.fnError e),
        ⟨true, true⟩) ∧
    ∀ r ∈ (withLock env store lockName lockId fn tm).1, r.lockName ≠ lockName := by
  have hany : (store.any (fun r => r.lockName ==
      ({ lockName := lockName, lockId := lockId, createdAt := env.now,
         expiresAt := env.now + tm * 60 * 1000 } : LockRecord).lockName)) = false := by
    rw [List.any_eq_false]
    intro r hr
    simpa using hfree r hr
  have hpre : ∀ x ∈ store,
      (fun r => r.lockName == lockName && r.lockId == lockId) x = false := by
    intro x hx
    have := hfree x hx
    simp [this]
  have hp : (fun r => r.lockName == lockName && r.lockId == lockId)
      ({ lockName := lockName, lockId := lockId, createdAt := env.now,
         expiresAt := env.now + tm * 60 * 1000 } : LockRecord) = true := by simp
  have hrel := removeFirst_append_hit hpre hp
  have hmain : withLock env store lockName lockId fn tm =
      (store,
        (match fn with
         | Except.ok a => WithLockOutcome.ok a
         | Except.error e => WithLockOutcome.fnError e),
        ⟨true, true⟩) := by
    cases fn with
    | ok a =>
        simp [withLock, acquireLock, lockInsertOne, hins, hany, releaseLock, hdel, hrel]
    | error e =>
        simp [withLock, acquireLock, lockInsertOne, hins, hany, releaseLock, hdel, hrel]
  refine ⟨hmain, ?_⟩
  rw [hmain]
  intro r hr
  exact hfree r hr

/-- C2 witness: a concrete run with the lock free; the record is gone after
both a resolving fn and a rejecting fn. -/
theorem withLock_unconditional_release_witness :
    withLock { now := 0 } [] "admin-user-sync" "lock-1" (Except.ok 7) 30 =
      ([], WithLockOutcome.ok 7, ⟨true, true⟩) ∧
    withLock { now := 0 } [] "admin-user-sync" "lock-1"
        (Except.error "boom" : Except String Nat) 30 =
      ([], WithLockOutcome.fnError "boom", ⟨true, true⟩) := by
  constructor
  · exact (withLock_unconditional_release { now := 0 } [] "admin-user-sync" "lock-1"
      (Except.ok 7) 30 rfl (by intro r hr; cases hr) rfl).1
  · exact (withLock_unconditional_release { now := 0 } [] "admin-user-sync" "lock-1"
      (Except.error "boom" : Except String Nat) 30 rfl (by intro r hr; cases hr) rfl).1

/-- C3: a duplicate-key rejection of the lock insert makes withLock return
null with fn never invoked and no delete attempted, the store untouched; a
non-duplicate insert error propagates to the caller instead. -/
theorem withLock_busy_and_insert_error {α : Type} (env : LockEnv) (store : LockStore)
    (lockName lockId : String) (fn : Except String α) (tm : Nat) :
    (env.insertFault = none → (∃ r ∈ store, r.lockName = lockName) →
      withLock env store lockName lockId fn tm =
        (store, WithLockOutcome.busy, ⟨false, false⟩)) ∧
    (∀ c : Int, env.insertFault = some c → c ≠ DUPLICATE_KEY_ERROR_CODE →
      withLock env store lockName lockId fn tm =
        (store, WithLockOutcome.acquireError { code := c }, ⟨false, false⟩)) := by
  constructor
  · intro hins hheld
    have hany : (store.any (fun r => r.lockName ==
        ({ lockName := lockName, lockId := lockId, createdAt := env.now,
           expiresAt := env.now + tm * 60 * 1000 } : LockRecord).lockName)) = true := by
      rw [List.any_eq_true]
      obtain ⟨r, hr, hname⟩ := hheld
      exact ⟨r, hr, by simp [hname]⟩
    simp [withLock, acquireLock, lockInsertOne, hins, hany, DUPLICATE_KEY_ERROR_CODE]
  · intro c hins hc
    simp [withLock, acquireLock, lockInsertOne, hins, hc]

/-- C3 witness: with the lock held, withLock reports busy and leaves the
store alone; a generic insert error (code 112) propagates. -/
theorem withLock_busy_and_insert_error_witness :
    withLock { now := 5 } [⟨"admin-user-sync", "other", 0, 9⟩] "admin-user-sync" "lock-2"
        (Except.ok 1) 30 =
      ([⟨"admin-user-sync", "other", 0, 9⟩], WithLockOutcome.busy, ⟨false, false⟩) ∧
    withLock { now := 5, insertFault := some 112 } [] "admin-user-sync" "lock-2"
        (Except.ok 1) 30 =
      ([], WithLockOutcome.acquireError { code := 112 }, ⟨false, false⟩) := by
  constructor
  · exact (withLock_busy_and_insert_error { now := 5 } _ "admin-user-sync" "lock-2"
      (Except.ok 1) 30).1 rfl ⟨_, List.mem_singleton_self _, rfl⟩
  · exact (withLock_busy_and_insert_error { now := 5, insertFault := some 112 } []
      "admin-user-sync" "lock-2" (Except.ok 1) 30).2 112 rfl (by decide)

/-- C10: releaseLock deletes at most the record matching both lockName and
lockId: a holder with a different lockId keeps its record and the call
reports false; any non-matching record survives and nothing outside the
store is touched; a store error is swallowed, reporting false. -/
theorem releaseLock_compare_and_delete (env : LockEnv) (store : LockStore)
    (lockName lockId : String) :
    (env.deleteFault = false →
      (∀ r ∈ store, r.lockName = lockName → r.lockId ≠ lockId) →
      releaseLock env store lockName lockId = (store, false)) ∧
    (env.deleteFault = false →
      ∀ r ∈ store, ¬(r.lockName = lockName ∧ r.lockId = lockId) →
        r ∈ (releaseLock env store lockName lockId).1) ∧
    (∀ r ∈ (releaseLock env store lockName lockId).1, r ∈ store) ∧
    (env.deleteFault = true → releaseLock env store lockName lockId = (store, false)) := by
  refine ⟨?_, ?_, ?_, ?_⟩
  · intro hdel hother
    have hall : ∀ r ∈ store,
        (fun r => r.lockName == lockName && r.lockId == lockId) r = false := by
      intro r hr
      by_cases hn : r.lockName = lockName
      · have := hother r hr hn
        simp [this]
      · simp [hn]
    simp [releaseLock, hdel, removeFirst_all_false hall]
  · intro hdel r hr hnm
    have hp : (fun r => r.lockName == lockName && r.lockId == lockId) r = false := by
      by_cases hn : r.lockName = lockName
      · have : r.lockId ≠ lockId := fun h => hnm ⟨hn, h⟩
        simp [this]
      · simp [hn]
    simp only [releaseLock, hdel, Bool.false_eq_true, if_false]
    exact mem_removeFirst_of_false hr hp
  · intro r hr
    by_cases hdel : env.deleteFault = true
    · simpa [releaseLock, hdel] using hr
    · have hdel' : env.deleteFault = false := Bool.eq_false_iff.mpr hdel
      simp only [releaseLock, hdel', Bool.false_eq_true, if_false] at hr
      exact removeFirst_subset hr
  · intro hdel
    simp [releaseLock, hdel]

/-- C10 witness: a record held under another lockId survives the release and
the call reports false; a store error also reports false. -/
theorem releaseLock_compare_and_delete_witness :
    releaseLock { now := 0 } [⟨"admin-user-sync", "newer", 3, 9⟩] "admin-user-sync" "stale" =
      ([⟨"admin-user-sync", "newer", 3, 9⟩], false) ∧
    releaseLock { now := 0, deleteFault := true } [] "admin-user-sync" "stale" =
      ([], false) := by
  constructor
  · exact (releaseLock_compare_and_delete { now := 0 } _ "admin-user-sync" "stale").1
      rfl (by intro r hr hn; simp at hr; simp [hr])
  · exact (releaseLock_compare_and_delete { now := 0, deleteFault := true } []
      "admin-user-sync" "stale").2.2.2 rfl

/-! ## Helper lemmas about the scope derivation -/

theorem mem_setAdd {acc : List String} {x s : String} :
    s ∈ setAdd acc x ↔ s ∈ acc ∨ s = x := by
  by_cases hx : x ∈ acc
  · simp only [setAdd, if_pos hx]
    constructor
    · exact Or.inl
    · rintro (h | rfl)
      · exact h
      · exact hx
  · simp [setAdd, if_neg hx]

theorem mem_foldl_setAdd (l : List String) :
    ∀ (acc : List String) (s : String), s ∈ l.foldl setAdd acc ↔ s ∈ acc ∨ s ∈ l := by
  induction l with
  | nil => intro acc s; simp
  | cons x xs ih =>
      intro acc s
      rw [List.foldl_cons, ih, mem_setAdd]
      constructor
      · rintro ((h | h) | h)
        · exact Or.inl h
        · exact Or.inr (by rw [h]; exact List.mem_cons_self x xs)
        · exact Or.inr (List.mem_cons_of_mem x h)
      · rintro (h | h)
        · exact Or.inl (Or.inl h)
        · rcases List.mem_cons.mp h with rfl | h
          · exact Or.inl (Or.inr rfl)
          · exact Or.inr h

theorem nodup_setAdd {acc : List String} (x : String) (h : acc.Nodup) :
    (setAdd acc x).Nodup := by
  by_cases hx : x ∈ acc
  · simpa [setAdd, hx] using h
  · simp only [setAdd, if_neg hx]
    exact List.Nodup.append h (List.nodup_singleton x)
      (by simpa [List.disjoint_singleton] using hx)

theorem nodup_foldl_setAdd (l : List String) :
    ∀ acc : List String, acc.Nodup → (l.foldl setAdd acc).Nodup := by
  induction l with
  | nil => intro acc h; simpa using h
  | cons x xs ih =>
      intro acc h
      rw [List.foldl_cons]
      exact ih _ (nodup_setAdd x h)

theorem nodup_mapScopes_aux (roles : List String) :
    ∀ acc : List String, acc.Nodup →
      (roles.foldl (fun acc role => (RoleScopes role).foldl setAdd acc) acc).Nodup := by
  induction roles with
  | nil => intro acc h; simpa using h
  | cons x xs ih =>
      intro acc h
      rw [List.foldl_cons]
      exact ih _ (nodup_foldl_setAdd _ _ h)

theorem mem_mapScopes_aux (roles : List String) :
    ∀ (acc : List String) (s : String),
      s ∈ roles.foldl (fun acc role => (RoleScopes role).foldl setAdd acc) acc ↔
        s ∈ acc ∨ ∃ r ∈ roles, s ∈ RoleScopes r := by
  induction roles with
  | nil => intro acc s; simp
  | cons x xs ih =>
      intro acc s
      rw [List.foldl_cons, ih, mem_foldl_setAdd]
      constructor
      · rintro ((h | h) | ⟨r, hr, hs⟩)
        · exact Or.inl h
        · exact Or.inr ⟨x, List.mem_cons_self x xs, h⟩
        · exact Or.inr ⟨r, List.mem_cons_of_mem x hr, hs⟩
      · rintro (h | ⟨r, hr, hs⟩)
        · exact Or.inl (Or.inl h)
        · rcases List.mem_cons.mp hr with rfl | hr
          · exact Or.inl (Or.inr hs)
          · exact Or.inr ⟨r, hr, hs⟩

theorem mem_mapScopesToRoles (roles : List String) (s : String) :
    s ∈ mapScopesToRoles roles ↔ ∃ r ∈ roles, s ∈ RoleScopes r := by
  rw [mapScopesToRoles, mem_mapScopes_aux]
  simp

/-- C4: mapScopesToRoles is exactly the union of the static RoleScopes sets
of the given roles, holds no duplicate scope, and as a set does not depend
on the order of the role list. -/
theorem mapScopesToRoles_spec (R : List String) :
    (mapScopesToRoles R).toFinset =
      R.toFinset.biUnion (fun r => (RoleScopes r).toFinset) ∧
    (mapScopesToRoles R).Nodup ∧
    ∀ R' : List String, R.Perm R' →
      (mapScopesToRoles R).toFinset = (mapScopesToRoles R').toFinset := by
  have hset : ∀ L : List String, (mapScopesToRoles L).toFinset =
      L.toFinset.biUnion (fun r => (RoleScopes r).toFinset) := by
    intro L
    ext s
    simp [List.mem_toFinset, Finset.mem_biUnion, mem_mapScopesToRoles]
  refine ⟨hset R, ?_, ?_⟩
  · exact nodup_mapScopes_aux _ _ List.nodup_nil
  · intro R' hperm
    rw [hset R, hset R', List.toFinset_eq_of_perm _ _ hperm]

/-- C4 witness: the scope set of [admin, form-creator] is the scope set of
[form-creator, admin]. -/
theorem mapScopesToRoles_spec_witness :
    (mapScopesToRoles [Roles.Admin, Roles.FormCreator]).toFinset =
      (mapScopesToRoles [Roles.FormCreator, Roles.Admin]).toFinset :=
  (mapScopesToRoles_spec [Roles.Admin, Roles.FormCreator]).2.2
    [Roles.FormCreator, Roles.Admin] (List.Perm.swap _ _ _)

/-! ## Helper lemmas about the users collection -/

theorem find?_userId_eq :
    ∀ {l : UserStore} {u : UserEntitlement} {id : String}, u ∈ l → u.userId = id →
      (l.map (fun x => x.userId)).Nodup →
      l.find? (fun x => x.userId == id) = some u := by
  intro l
  induction l with
  | nil => intro u id h; cases h
  | cons v vs ih =>
      intro u id hmem hid hnd
      rw [List.map_cons, List.nodup_cons] at hnd
      by_cases hv : v.userId = id
      · have huv : u = v := by
          rcases List.mem_cons.mp hmem with rfl | hin
          · rfl
          · exfalso
            refine hnd.1 ?_
            rw [hv, ← hid]
            exact List.mem_map_of_mem _ hin
        rw [List.find?_cons_of_pos _ (by simp [hv]), huv]
      · have hu : u ∈ vs := by
          rcases List.mem_cons.mp hmem with rfl | hin
          · exact absurd hid hv
          · exact hin
        rw [List.find?_cons_of_neg _ (by simp [hv])]
        exact ih hu hid hnd.2

theorem mapLookup_build_eq {l : UserStore} {u : UserEntitlement} {id : String}
    (hmem : u ∈ l) (hid : u.userId = id) (hne : id ≠ "")
    (hnd : (l.map (fun x => x.userId)).Nodup) :
    mapLookup (buildExistingUsersMap l) id = some u := by
  have hmemf : u ∈ buildExistingUsersMap l :=
    List.mem_filter.mpr ⟨hmem, by simp [hid, hne]⟩
  have hndf : ((buildExistingUsersMap l).map (fun x => x.userId)).Nodup :=
    List.Nodup.sublist (List.Sublist.map _ (List.filter_sublist l)) hnd
  exact find?_userId_eq hmemf hid hndf

theorem eq_of_mem_nodup_userId {S : UserStore}
    (hnd : (S.map (fun x => x.userId)).Nodup) {u v : UserEntitlement}
    (hu : u ∈ S) (hv : v ∈ S) (h : u.userId = v.userId) : u = v :=
  List.inj_on_of_nodup_map hnd hu hv h

theorem roles_eq_singleton {roles : List String}
    (h1 : roles.length = 1) (h2 : Roles.Admin ∈ roles) : roles = [Roles.Admin] := by
  match roles with
  | [] => cases h2
  | [a] =>
      rcases List.mem_singleton.mp h2 with rfl
      rfl
  | a :: b :: t => simp at h1

theorem updateFirst_all_ne {id : String} {f : UserEntitlement → UserEntitlement} :
    ∀ {l : UserStore}, (∀ r ∈ l, r.userId ≠ id) → updateFirst id f l = (l, 0, 0) := by
  intro l h
  induction l with
  | nil => rfl
  | cons r rs ih =>
      have hr : r.userId ≠ id := h r (List.mem_cons_self r rs)
      have hrs : ∀ x ∈ rs, x.userId ≠ id := fun x hx => h x (List.mem_cons_of_mem r hx)
      simp [updateFirst, hr, ih hrs]

theorem updateFirst_map_userId {id : String} {f : UserEntitlement → UserEntitlement}
    (hf : ∀ r : UserEntitlement, r.userId = id → (f r).userId = r.userId) :
    ∀ l : UserStore,
      (updateFirst id f l).1.map (fun x => x.userId) = l.map (fun x => x.userId) := by
  intro l
  induction l with
  | nil => rfl
  | cons r rs ih =>
      by_cases hr : r.userId = id
      · simp [updateFirst, hr, hf r hr]
      · simp [updateFirst, hr, ih]

theorem updateFirst_mem_result {id : String} {f : UserEntitlement → UserEntitlement} :
    ∀ {l : UserStore} {x : UserEntitlement}, x ∈ (updateFirst id f l).1 →
      x ∈ l ∨ ∃ r ∈ l, x = f r := by
  intro l
  induction l with
  | nil => intro x h; simp [updateFirst] at h
  | cons r rs ih =>
      intro x h
      by_cases hr : r.userId = id
      · simp [updateFirst, hr] at h
        rcases h with rfl | h
        · exact Or.inr ⟨r, List.mem_cons_self r rs, rfl⟩
        · exact Or.inl (List.mem_cons_of_mem r h)
      · simp [updateFirst, hr] at h
        rcases h with rfl | h
        · exact Or.inl (List.mem_cons_self x rs)
        · rcases ih h with h | ⟨r', hr', rfl⟩
          · exact Or.inl (List.mem_cons_of_mem r h)
          · exact Or.inr ⟨r', List.mem_cons_of_mem r hr', rfl⟩

theorem updateFirst_mem_of_ne {id : String} {f : UserEntitlement → UserEntitlement} :
    ∀ {l : UserStore} {u : UserEntitlement}, u ∈ l → u.userId ≠ id →
      u ∈ (updateFirst id f l).1 := by
  intro l
  induction l with
  | nil => intro u h; cases h
  | cons r rs ih =>
      intro u hmem hne
      by_cases hr : r.userId = id
      · have hur : u ≠ r := fun h => hne (h ▸ hr)
        have hu : u ∈ rs := by
          rcases List.mem_cons.mp hmem with rfl | hin
          · exact absurd rfl hur
          · exact hin
        simp [updateFirst, hr]
        exact Or.inr hu
      · simp [updateFirst, hr]
        rcases List.mem_cons.mp hmem with rfl | hin
        · exact Or.inl rfl
        · exact Or.inr (ih hin hne)

theorem updateFirst_filter_ne {id uid : String} {f : UserEntitlement → UserEntitlement}
    (hne : uid ≠ id) (hf : ∀ r : UserEntitlement, r.userId = id → (f r).userId = id) :
    ∀ l : UserStore,
      (updateFirst id f l).1.filter (fun r => r.userId == uid) =
        l.filter (fun r => r.userId == uid) := by
  intro l
  induction l with
  | nil => rfl
  | cons r rs ih =>
      by_cases hr : r.userId = id
      · have h1 : ((f r).userId == uid) = false := by
          rw [hf r hr]
          simp
          exact fun h => hne h.symm
        have h2 : (r.userId == uid) = false := by
          rw [hr]
          simp
          exact fun h => hne h.symm
        simp only [updateFirst, if_pos hr]
        rw [List.filter_cons, List.filter_cons, h1, h2]
        simp
      · simp [updateFirst, hr, List.filter_cons, ih]

theorem updateFirst_decomp {id : String} (f : UserEntitlement → UserEntitlement) :
    ∀ {l : UserStore} {u : UserEntitlement}, u ∈ l → u.userId = id →
      (l.map (fun x => x.userId)).Nodup →
      ∃ l₁ l₂ : UserStore, l = l₁ ++ u :: l₂ ∧ (∀ x ∈ l₁, x.userId ≠ id) ∧
        updateFirst id f l = (l₁ ++ f u :: l₂, 1, if f u = u then 0 else 1) := by
  intro l
  induction l with
  | nil => intro u h; cases h
  | cons r rs ih =>
      intro u hmem hid hnd
      rw [List.map_cons, List.nodup_cons] at hnd
      by_cases hr : r.userId = id
      · have huv : u = r := by
          rcases List.mem_cons.mp hmem with rfl | hin
          · rfl
          · exfalso
            refine hnd.1 ?_
            rw [hr, ← hid]
            exact List.mem_map_of_mem _ hin
        subst huv
        exact ⟨[], rs, rfl, by simp, by simp [updateFirst, hr]⟩
      · have hu : u ∈ rs := by
          rcases List.mem_cons.mp hmem with rfl | hin
          · exact absurd hid hr
          · exact hin
        obtain ⟨l₁, l₂, hsplit, hpre, hupd⟩ := ih hu hid hnd.2
        refine ⟨r :: l₁, l₂, by rw [hsplit]; rfl, ?_, ?_⟩
        · intro x hx
          rcases List.mem_cons.mp hx with rfl | hin
          · exact hr
          · exact hpre x hin
        · simp [updateFirst, hr, hupd]

/-- C1: a directory member whose existing record's role set is not exactly
the admin set gets its roles overwritten to exactly [admin] — not merged —
with scopes recomputed from [admin], via a single update call. -/
theorem processAdminUser_authoritative_overwrite
    (env : SyncEnv) (st : RunState) (member : AzureUser) (u : UserEntitlement)
    (hmem : u ∈ st.store) (hid : u.userId = member.id) (hne : member.id ≠ "")
    (hnd : (st.store.map (fun x => x.userId)).Nodup)
    (hfail : member.id ∉ env.failUserIds)
    (hroles : u.roles.toFinset ≠ {Roles.Admin}) :
    ∃ l₁ l₂ : UserStore,
      st.store = l₁ ++ u :: l₂ ∧
      processAdminUser env st member (buildExistingUsersMap st.store) =
        ({ store := l₁ ++
              applySet u member.id [Roles.Admin] (mapScopesToRoles [Roles.Admin]) :: l₂,
           log := st.log ++ [WriteOp.updateOp member.id] }, none) ∧
      (applySet u member.id [Roles.Admin] (mapScopesToRoles [Roles.Admin])).roles =
        [Roles.Admin] := by
  have hlookup : mapLookup (buildExistingUsersMap st.store) member.id = some u :=
    mapLookup_build_eq hmem hid hne hnd
  have hcond : u.roles.length ≠ 1 ∨ Roles.Admin ∉ u.roles := by
    by_contra h
    push_neg at h
    have : u.roles = [Roles.Admin] := roles_eq_singleton h.1 h.2
    exact hroles (by rw [this]; rfl)
  obtain ⟨l₁, l₂, hsplit, hpre, hupd⟩ :=
    updateFirst_decomp
      (fun r => applySet r member.id [Roles.Admin] (mapScopesToRoles [Roles.Admin]))
      hmem hid hnd
  have hfu : applySet u member.id [Roles.Admin] (mapScopesToRoles [Roles.Admin]) ≠ u := by
    intro h
    have hru : u.roles = [Roles.Admin] := (congrArg UserEntitlement.roles h).symm
    exact hroles (by rw [hru]; rfl)
  refine ⟨l₁, l₂, hsplit, ?_, rfl⟩
  simp only [processAdminUser, hlookup, if_pos hcond, updateUserInternal, repoUpdate]
  rw [if_neg hfail, hupd]
  simp [hfu]

/-- C1 witness: a record with roles [form-creator] in the group ends with
roles exactly [admin]. -/
theorem processAdminUser_authoritative_overwrite_witness :
    ∃ l₁ l₂ : UserStore,
      ([⟨"azure-user-1", [Roles.FormCreator], ["form-read", "form-edit"], none, none⟩] :
          UserStore) =
        l₁ ++ ⟨"azure-user-1", [Roles.FormCreator], ["form-read", "form-edit"],
          none, none⟩ :: l₂ ∧
      processAdminUser { } ⟨[⟨"azure-user-1", [Roles.FormCreator],
          ["form-read", "form-edit"], none, none⟩], []⟩ ⟨"azure-user-1", "John", "j@d"⟩
          (buildExistingUsersMap [⟨"azure-user-1", [Roles.FormCreator],
            ["form-read", "form-edit"], none, none⟩]) =
        ({ store := l₁ ++
              applySet ⟨"azure-user-1", [Roles.FormCreator], ["form-read", "form-edit"],
                none, none⟩ "azure-user-1" [Roles.Admin]
                (mapScopesToRoles [Roles.Admin]) :: l₂,
           log := [] ++ [WriteOp.updateOp "azure-user-1"] }, none) ∧
      (applySet ⟨"azure-user-1", [Roles.FormCreator], ["form-read", "form-edit"],
          none, none⟩ "azure-user-1" [Roles.Admin]
          (mapScopesToRoles [Roles.Admin])).roles = [Roles.Admin] :=
  processAdminUser_authoritative_overwrite { }
    ⟨[⟨"azure-user-1", [Roles.FormCreator], ["form-read", "form-edit"], none, none⟩], []⟩
    ⟨"azure-user-1", "John", "j@d"⟩
    ⟨"azure-user-1", [Roles.FormCreator], ["form-read", "form-edit"], none, none⟩
    (List.mem_singleton_self _) rfl (by decide) (by simp) (by simp) (by decide)

/-! ## Shape lemmas for the repository write operations -/

theorem exists_userId_of_map_eq {l l' : UserStore}
    (h : l'.map (fun x => x.userId) = l.map (fun x => x.userId)) {a : String}
    (hx : ∃ x ∈ l, x.userId = a) : ∃ x' ∈ l', x'.userId = a := by
  obtain ⟨x, hxl, hxa⟩ := hx
  have hmem : a ∈ l'.map (fun x => x.userId) := by
    rw [h, ← hxa]
    exact List.mem_map_of_mem _ hxl
  obtain ⟨x', hx', ha⟩ := List.mem_map.mp hmem
  exact ⟨x', hx', ha⟩

theorem repoCreate_store_cases (env : SyncEnv) (st : RunState) (doc : UserEntitlement) :
    (repoCreate env st doc).1.store = st.store ∨
    (st.store.any (fun r => r.userId == doc.userId) = false ∧
      (repoCreate env st doc).1.store = st.store ++ [doc]) := by
  simp only [repoCreate]
  by_cases hfail : doc.userId ∈ env.failUserIds
  · rw [if_pos hfail]
    exact Or.inl rfl
  · rw [if_neg hfail]
    by_cases hdup : st.store.any (fun r => r.userId == doc.userId) = true
    · simp [hdup]
    · have hdup' : st.store.any (fun r => r.userId == doc.userId) = false :=
        Bool.eq_false_iff.mpr hdup
      simp [hdup']

theorem repoCreate_store_dup (env : SyncEnv) (st : RunState) (doc : UserEntitlement)
    (hdup : st.store.any (fun r => r.userId == doc.userId) = true) :
    (repoCreate env st doc).1.store = st.store := by
  rcases repoCreate_store_cases env st doc with h | ⟨hd, _⟩
  · exact h
  · rw [hdup] at hd
    cases hd

theorem repoCreate_store_success (env : SyncEnv) (st : RunState) (doc : UserEntitlement)
    (hfail : doc.userId ∉ env.failUserIds)
    (hdup : st.store.any (fun r => r.userId == doc.userId) = false) :
    (repoCreate env st doc).1.store = st.store ++ [doc] := by
  simp only [repoCreate]
  rw [if_neg hfail]
  simp [hdup]

theorem repoUpdate_store_nofail (env : SyncEnv) (st : RunState) (userId : String)
    (doc : UserEntitlement) (hfail : userId ∉ env.failUserIds) :
    (repoUpdate env st userId doc).1.store =
      (updateFirst userId (fun r => applySet r doc.userId doc.roles doc.scopes)
        st.store).1 := by
  simp only [repoUpdate]
  rw [if_neg hfail]
  by_cases hmod : (updateFirst userId
      (fun r => applySet r doc.userId doc.roles doc.scopes) st.store).2.2 = 1
  · rw [if_pos hmod]
  · rw [if_neg hmod]

theorem repoUpdate_store_cases (env : SyncEnv) (st : RunState) (userId : String)
    (doc : UserEntitlement) :
    (repoUpdate env st userId doc).1.store = st.store ∨
    (repoUpdate env st userId doc).1.store =
      (updateFirst userId (fun r => applySet r doc.userId doc.roles doc.scopes)
        st.store).1 := by
  by_cases hfail : userId ∈ env.failUserIds
  · simp only [repoUpdate]
    rw [if_pos hfail]
    exact Or.inl rfl
  · exact Or.inr (repoUpdate_store_nofail env st userId doc hfail)

/-- The three store shapes one processAdminUser step can produce: untouched,
extended by a fresh admin-only record, or with the first record for the
member's id overwritten to admin-only. -/
theorem processAdminUser_store_cases (env : SyncEnv) (st : RunState) (m : AzureUser)
    (M : UserStore) :
    (processAdminUser env st m M).1.store = st.store ∨
    (∃ doc : UserEntitlement, doc.userId = m.id ∧ doc.roles = [Roles.Admin] ∧
      st.store.any (fun r => r.userId == m.id) = false ∧
      (processAdminUser env st m M).1.store = st.store ++ [doc]) ∨
    (processAdminUser env st m M).1.store =
      (updateFirst m.id (fun r => applySet r m.id [Roles.Admin]
          (mapScopesToRoles [Roles.Admin])) st.store).1 := by
  cases hlook : mapLookup M m.id with
  | some u =>
      by_cases hcond : u.roles.length ≠ 1 ∨ Roles.Admin ∉ u.roles
      · simp only [processAdminUser, hlook, if_pos hcond, updateUserInternal]
        rcases repoUpdate_store_cases env st m.id
            ⟨m.id, [Roles.Admin], mapScopesToRoles [Roles.Admin], none, none⟩ with h | h
        · exact Or.inl h
        · exact Or.inr (Or.inr h)
      · simp only [processAdminUser, hlook, if_neg hcond]
        exact Or.inl trivial
  | none =>
      simp only [processAdminUser, hlook, createUserInternal]
      rcases repoCreate_store_cases env st
          ⟨m.id, [Roles.Admin], mapScopesToRoles [Roles.Admin],
            if m.email = "" then none else some m.email,
            if m.displayName = "" then none else some m.displayName⟩ with h | ⟨hd, h⟩
      · exact Or.inl h
      · exact Or.inr (Or.inl ⟨_, rfl, rfl, hd, h⟩)

/-- One step preserves the reconciliation invariant. -/
theorem processAdminUser_inv (env : SyncEnv) {S : UserStore} {st : RunState}
    (m : AzureUser) (M : UserStore) (hinv : SyncInv S st) :
    SyncInv S (processAdminUser env st m M).1 := by
  obtain ⟨hnd, hids, hmix⟩ := hinv
  rcases processAdminUser_store_cases env st m M with h | ⟨doc, hdid, hdroles, hdup, h⟩ | h
  · exact ⟨h ▸ hnd, fun u hu => h ▸ hids u hu, h ▸ hmix⟩
  · refine ⟨?_, ?_, ?_⟩
    · rw [h, List.map_append, List.map_singleton]
      refine List.Nodup.append hnd (List.nodup_singleton _) ?_
      rw [List.disjoint_singleton]
      intro hmem
      obtain ⟨x, hx, hxid⟩ := List.mem_map.mp hmem
      rw [List.any_eq_false] at hdup
      exact hdup x hx (by simp [hxid, hdid])
    · intro u hu
      obtain ⟨u', hu', he⟩ := hids u hu
      exact ⟨u', h ▸ List.mem_append_left _ hu', he⟩
    · intro u' hu'
      rw [h] at hu'
      rcases List.mem_append.mp hu' with hin | hin
      · exact hmix u' hin
      · rcases List.mem_singleton.mp hin with rfl
        exact Or.inr hdroles
  · have hmap : ((updateFirst m.id (fun r => applySet r m.id [Roles.Admin]
        (mapScopesToRoles [Roles.Admin])) st.store).1.map (fun x => x.userId)) =
          st.store.map (fun x => x.userId) :=
      updateFirst_map_userId (fun r hr => by simp [applySet, hr]) st.store
    refine ⟨?_, ?_, ?_⟩
    · rw [h, hmap]
      exact hnd
    · intro u hu
      refine exists_userId_of_map_eq (l := st.store) (by rw [h, hmap]) (hids u hu)
    · intro u' hu'
      rw [h] at hu'
      rcases updateFirst_mem_result hu' with hin | ⟨r, _, rfl⟩
      · exact hmix u' hin
      · exact Or.inr rfl

/-- One step keeps any already-established admin-only record established. -/
theorem processAdminUser_preserves_admin (env : SyncEnv) {st : RunState}
    (m : AzureUser) (M : UserStore) {X : String}
    (hnd : (st.store.map (fun x => x.userId)).Nodup)
    (h : AdminRecorded st X) : AdminRecorded (processAdminUser env st m M).1 X := by
  obtain ⟨u', hu', hXid, hXroles⟩ := h
  rcases processAdminUser_store_cases env st m M with hs | ⟨doc, _, _, _, hs⟩ | hs
  · exact ⟨u', hs ▸ hu', hXid, hXroles⟩
  · exact ⟨u', hs ▸ List.mem_append_left _ hu', hXid, hXroles⟩
  · by_cases hX : X = m.id
    · obtain ⟨l₁, l₂, hsplit, hpre, hupd⟩ :=
        updateFirst_decomp (fun r => applySet r m.id [Roles.Admin]
          (mapScopesToRoles [Roles.Admin])) hu' (hXid.trans hX) hnd
      refine ⟨applySet u' m.id [Roles.Admin] (mapScopesToRoles [Roles.Admin]),
        ?_, hX.symm, rfl⟩
      rw [hs, hupd]
      exact List.mem_append_right _ (List.mem_cons_self _ _)
    · have hne : u'.userId ≠ m.id := by rw [hXid]; exact hX
      exact ⟨u', hs ▸ updateFirst_mem_of_ne hu' hne, hXid, hXroles⟩

/-- A fault-free member with a nonempty id ends the step with an admin-only
record under its id. -/
theorem processAdminUser_establishes (env : SyncEnv) {S : UserStore} {st : RunState}
    (m : AzureUser) (hinv : SyncInv S st)
    (hndS : (S.map (fun x => x.userId)).Nodup)
    (hfail : m.id ∉ env.failUserIds) (hne : m.id ≠ "") :
    AdminRecorded (processAdminUser env st m (buildExistingUsersMap S)).1 m.id := by
  obtain ⟨hnd, hids, hmix⟩ := hinv
  cases hlook : mapLookup (buildExistingUsersMap S) m.id with
  | none =>
      simp only [processAdminUser, hlook, createUserInternal]
      by_cases hdup : st.store.any (fun r => r.userId == m.id) = true
      · obtain ⟨u', hu', hpu⟩ := List.any_eq_true.mp hdup
        have hid' : u'.userId = m.id := by simpa using hpu
        have hroles' : u'.roles = [Roles.Admin] := by
          rcases hmix u' hu' with hin | hr
          · exfalso
            have hmemf : u' ∈ buildExistingUsersMap S :=
              List.mem_filter.mpr ⟨hin, by simp [hid', hne]⟩
            have := List.find?_eq_none.mp hlook u' hmemf
            simp [hid'] at this
          · exact hr
        have hstore := repoCreate_store_dup env st
          ⟨m.id, [Roles.Admin], mapScopesToRoles [Roles.Admin],
            if m.email = "" then none else some m.email,
            if m.displayName = "" then none else some m.displayName⟩ (by simpa using hdup)
        exact ⟨u', hstore ▸ hu', hid', hroles'⟩
      · have hdup' : st.store.any (fun r => r.userId == m.id) = false :=
          Bool.eq_false_iff.mpr hdup
        have hstore := repoCreate_store_success env st
          ⟨m.id, [Roles.Admin], mapScopesToRoles [Roles.Admin],
            if m.email = "" then none else some m.email,
            if m.displayName = "" then none else some m.displayName⟩
          hfail (by simpa using hdup')
        refine ⟨⟨m.id, [Roles.Admin], mapScopesToRoles [Roles.Admin],
            if m.email = "" then none else some m.email,
            if m.displayName = "" then none else some m.displayName⟩, ?_, rfl, rfl⟩
        rw [hstore]
        exact List.mem_append_right _ (List.mem_cons_self _ _)
  | some u =>
      have humem : u ∈ buildExistingUsersMap S := List.mem_of_find?_eq_some hlook
      have huS : u ∈ S := List.mem_of_mem_filter humem
      have huid : u.userId = m.id := by
        have := List.find?_some hlook
        simpa using this
      by_cases hcond : u.roles.length ≠ 1 ∨ Roles.Admin ∉ u.roles
      · simp only [processAdminUser, hlook, if_pos hcond, updateUserInternal]
        obtain ⟨u'', hu'', he⟩ := hids u huS
        have hstore := repoUpdate_store_nofail env st m.id
          ⟨m.id, [Roles.Admin], mapScopesToRoles [Roles.Admin], none, none⟩ hfail
        obtain ⟨l₁, l₂, hsplit, hpre, hupd⟩ :=
          updateFirst_decomp (fun r => applySet r m.id [Roles.Admin]
            (mapScopesToRoles [Roles.Admin])) hu'' (he.trans huid) hnd
        refine ⟨applySet u'' m.id [Roles.Admin] (mapScopesToRoles [Roles.Admin]),
          ?_, rfl, rfl⟩
        rw [hstore, hupd]
        exact List.mem_append_right _ (List.mem_cons_self _ _)
      · have hadmin : u.roles = [Roles.Admin] := by
          push_neg at hcond
          exact roles_eq_singleton hcond.1 hcond.2
        simp only [processAdminUser, hlook, if_neg hcond]
        obtain ⟨u'', hu'', he⟩ := hids u huS
        rcases hmix u'' hu'' with hin | hr
        · have : u'' = u := eq_of_mem_nodup_userId hndS hin huS he
          exact ⟨u'', hu'', he.trans huid, this ▸ hadmin⟩
        · exact ⟨u'', hu'', he.trans huid, hr⟩

/-- Folding the per-member step keeps the invariant, keeps established admin
records, and establishes one for every fault-free member with an id. -/
theorem syncFold_spec (env : SyncEnv) (S : UserStore)
    (hndS : (S.map (fun x => x.userId)).Nodup) :
    ∀ (ms : List AzureUser) (st : RunState), SyncInv S st →
      SyncInv S (ms.foldl (fun st m =>
        (processAdminUser env st m (buildExistingUsersMap S)).1) st) ∧
      (∀ X : String, AdminRecorded st X →
        AdminRecorded (ms.foldl (fun st m =>
          (processAdminUser env st m (buildExistingUsersMap S)).1) st) X) ∧
      (∀ m ∈ ms, m.id ∉ env.failUserIds → m.id ≠ "" →
        AdminRecorded (ms.foldl (fun st m =>
          (processAdminUser env st m (buildExistingUsersMap S)).1) st) m.id) := by
  intro ms
  induction ms with
  | nil =>
      intro st hinv
      exact ⟨hinv, fun X h => h, by intro m hm; cases hm⟩
  | cons m ms ih =>
      intro st hinv
      have hinv' : SyncInv S (processAdminUser env st m (buildExistingUsersMap S)).1 :=
        processAdminUser_inv env m _ hinv
      obtain ⟨h1, h2, h3⟩ := ih _ hinv'
      rw [List.foldl_cons]
      refine ⟨h1, ?_, ?_⟩
      · intro X hX
        exact h2 X (processAdminUser_preserves_admin env m _ hinv.1 hX)
      · intro m' hm' hfail' hne'
        rcases List.mem_cons.mp hm' with rfl | hin
        · exact h2 m'.id (processAdminUser_establishes env m' hinv hndS hfail' hne')
        · exact h3 m' hin hfail' hne'

/-- The transaction body keeps the invariant and records every fault-free
member as admin-only. -/
theorem syncBody_spec (env : SyncEnv) (S : UserStore) (members : List AzureUser)
    (hndS : (S.map (fun x => x.userId)).Nodup) :
    SyncInv S (syncBody env S members) ∧
    ∀ m ∈ members, m.id ∉ env.failUserIds → m.id ≠ "" →
      AdminRecorded (syncBody env S members) m.id := by
  have hbase : SyncInv S { store := S, log := [] } :=
    ⟨hndS, fun u hu => ⟨u, hu, rfl⟩, fun u' hu' => Or.inl hu'⟩
  obtain ⟨h1, _, h3⟩ := syncFold_spec env S hndS members { store := S, log := [] } hbase
  exact ⟨h1, h3⟩

/-- C5: with the transaction mechanism healthy, a per-member failure is
caught: the run still resolves and every other fault-free member ends up
recorded with exactly the admin role; a transaction-mechanism failure makes
the whole reconciliation reject instead. -/
theorem processAllAdminUsers_fault_isolation (env : SyncEnv) (S : UserStore)
    (members : List AzureUser) (hndS : (S.map (fun x => x.userId)).Nodup) :
    (env.txnFault = false →
      processAllAdminUsers env S members = Except.ok (syncBody env S members) ∧
      ∀ m ∈ members, m.id ∉ env.failUserIds → m.id ≠ "" →
        AdminRecorded (syncBody env S members) m.id) ∧
    (env.txnFault = true →
      processAllAdminUsers env S members = Except.error UserError.txnError) := by
  constructor
  · intro htxn
    refine ⟨?_, (syncBody_spec env S members hndS).2⟩
    simp [processAllAdminUsers, htxn]
  · intro htxn
    simp [processAllAdminUsers, htxn]

/-- C5 witness: one member's store write fails, the run still resolves and
the other member's record is admin-only. -/
theorem processAllAdminUsers_fault_isolation_witness :
    (processAllAdminUsers { failUserIds := ["bad-id"] }
        [⟨"u1", [Roles.FormCreator], ["form-read", "form-edit"], none, none⟩]
        [⟨"bad-id", "Bad", "b@d"⟩, ⟨"u1", "Jo", "j@d"⟩] =
      Except.ok (syncBody { failUserIds := ["bad-id"] }
        [⟨"u1", [Roles.FormCreator], ["form-read", "form-edit"], none, none⟩]
        [⟨"bad-id", "Bad", "b@d"⟩, ⟨"u1", "Jo", "j@d"⟩])) ∧
    AdminRecorded (syncBody { failUserIds := ["bad-id"] }
        [⟨"u1", [Roles.FormCreator], ["form-read", "form-edit"], none, none⟩]
        [⟨"bad-id", "Bad", "b@d"⟩, ⟨"u1", "Jo", "j@d"⟩]) "u1" := by
  have h := (processAllAdminUsers_fault_isolation { failUserIds := ["bad-id"] }
    [⟨"u1", [Roles.FormCreator], ["form-read", "form-edit"], none, none⟩]
    [⟨"bad-id", "Bad", "b@d"⟩, ⟨"u1", "Jo", "j@d"⟩] (by simp)).1 rfl
  exact ⟨h.1, h.2 ⟨"u1", "Jo", "j@d"⟩ (by simp) (by simp) (by simp)⟩

theorem processAdminUser_skip (env : SyncEnv) (st : RunState) (m : AzureUser)
    (M : UserStore) (u : UserEntitlement)
    (hlook : mapLookup M m.id = some u) (hadmin : u.roles = [Roles.Admin]) :
    processAdminUser env st m M = (st, none) := by
  have hcond : ¬(u.roles.length ≠ 1 ∨ Roles.Admin ∉ u.roles) := by
    rw [hadmin]
    simp
  simp only [processAdminUser, hlook, if_neg hcond]

theorem syncFold_const (env : SyncEnv) (M : UserStore) :
    ∀ (ms : List AzureUser) (st : RunState),
      (∀ m ∈ ms, processAdminUser env st m M = (st, none)) →
      ms.foldl (fun st m => (processAdminUser env st m M).1) st = st := by
  intro ms
  induction ms with
  | nil => intro st h; rfl
  | cons m ms ih =>
      intro st h
      rw [List.foldl_cons, h m (List.mem_cons_self m ms)]
      exact ih st (fun m' hm' => h m' (List.mem_cons_of_mem m hm'))

theorem secondRun_noop (env : SyncEnv) (T : UserStore) (members : List AzureUser)
    (hndT : (T.map (fun x => x.userId)).Nodup)
    (hadm : ∀ m ∈ members, ∃ u' ∈ T, u'.userId = m.id ∧ u'.roles = [Roles.Admin])
    (hids : ∀ m ∈ members, m.id ≠ "") (htxn : env.txnFault = false) :
    processAllAdminUsers env T members = Except.ok { store := T, log := [] } := by
  have hskip : ∀ m ∈ members,
      processAdminUser env { store := T, log := [] } m (buildExistingUsersMap T) =
        ({ store := T, log := [] }, none) := by
    intro m hm
    obtain ⟨u', hu', huid, hroles⟩ := hadm m hm
    exact processAdminUser_skip env _ m _ u'
      (mapLookup_build_eq hu' huid (hids m hm) hndT) hroles
  have hconst := syncFold_const env (buildExistingUsersMap T) members
    { store := T, log := [] } hskip
  simp only [processAllAdminUsers, htxn, Bool.false_eq_true, if_false, syncBody]
  rw [hconst]

/-- C6: a fault-free reconciliation leaves every member admin-only, so a
second run over the unchanged membership issues zero create and update
calls (its write log is empty) and leaves the store untouched; in
particular a member whose record already holds exactly the admin role
causes no write. -/
theorem reconciliation_idempotent (env : SyncEnv) (S : UserStore)
    (members : List AzureUser)
    (hndS : (S.map (fun x => x.userId)).Nodup)
    (hfault : env.failUserIds = [])
    (htxn : env.txnFault = false)
    (hids : ∀ m ∈ members, m.id ≠ "") :
    processAllAdminUsers env S members = Except.ok (syncBody env S members) ∧
    processAllAdminUsers env (syncBody env S members).store members =
      Except.ok { store := (syncBody env S members).store, log := [] } ∧
    (∀ (st : RunState) (m : AzureUser) (M : UserStore) (u : UserEntitlement),
      mapLookup M m.id = some u → u.roles = [Roles.Admin] →
      processAdminUser env st m M = (st, none)) := by
  obtain ⟨hinv, hadm⟩ := syncBody_spec env S members hndS
  refine ⟨by simp [processAllAdminUsers, htxn], ?_, ?_⟩
  · refine secondRun_noop env (syncBody env S members).store members hinv.1 ?_ hids htxn
    intro m hm
    exact hadm m hm (by rw [hfault]; exact List.not_mem_nil _) (hids m hm)
  · intro st m M u hlook hadmin
    exact processAdminUser_skip env st m M u hlook hadmin

/-- C6 witness: a store with one form-creator record and a two-member group
reconcile to admin-only records; the immediate second run is a no-op with
an empty write log. -/
theorem reconciliation_idempotent_witness :
    processAllAdminUsers { } [⟨"u1", [Roles.FormCreator], ["form-read", "form-edit"],
        none, none⟩] [⟨"u1", "Jo", "j@d"⟩, ⟨"u2", "Al", "a@d"⟩] =
      Except.ok (syncBody { } [⟨"u1", [Roles.FormCreator], ["form-read", "form-edit"],
        none, none⟩] [⟨"u1", "Jo", "j@d"⟩, ⟨"u2", "Al", "a@d"⟩]) ∧
    processAllAdminUsers { }
        (syncBody { } [⟨"u1", [Roles.FormCreator], ["form-read", "form-edit"],
          none, none⟩] [⟨"u1", "Jo", "j@d"⟩, ⟨"u2", "Al", "a@d"⟩]).store
        [⟨"u1", "Jo", "j@d"⟩, ⟨"u2", "Al", "a@d"⟩] =
      Except.ok { store := (syncBody { } [⟨"u1", [Roles.FormCreator],
          ["form-read", "form-edit"], none, none⟩]
          [⟨"u1", "Jo", "j@d"⟩, ⟨"u2", "Al", "a@d"⟩]).store, log := [] } := by
  have h := reconciliation_idempotent { }
    [⟨"u1", [Roles.FormCreator], ["form-read", "form-edit"], none, none⟩]
    [⟨"u1", "Jo", "j@d"⟩, ⟨"u2", "Al", "a@d"⟩]
    (by simp) rfl rfl (by decide)
  exact ⟨h.1, h.2.1⟩

theorem repoCreate_log (env : SyncEnv) (st : RunState) (doc : UserEntitlement) :
    (repoCreate env st doc).1.log = st.log ++ [WriteOp.createOp doc.userId] := by
  simp only [repoCreate]
  by_cases hfail : doc.userId ∈ env.failUserIds
  · rw [if_pos hfail]
  · rw [if_neg hfail]
    by_cases hdup : st.store.any (fun r => r.userId == doc.userId) = true
    · simp [hdup]
    · simp [Bool.eq_false_iff.mpr hdup]

theorem repoUpdate_log (env : SyncEnv) (st : RunState) (userId : String)
    (doc : UserEntitlement) :
    (repoUpdate env st userId doc).1.log = st.log ++ [WriteOp.updateOp userId] := by
  simp only [repoUpdate]
  by_cases hfail : userId ∈ env.failUserIds
  · rw [if_pos hfail]
  · rw [if_neg hfail]
    by_cases hmod : (updateFirst userId
        (fun r => applySet r doc.userId doc.roles doc.scopes) st.store).2.2 = 1
    · rw [if_pos hmod]
    · rw [if_neg hmod]

/-- Every write call one step issues targets the member's own id. -/
theorem processAdminUser_log (env : SyncEnv) (st : RunState) (m : AzureUser)
    (M : UserStore) :
    ∃ ops : List WriteOp, (processAdminUser env st m M).1.log = st.log ++ ops ∧
      ∀ op ∈ ops, op.target = m.id := by
  cases hlook : mapLookup M m.id with
  | some u =>
      by_cases hcond : u.roles.length ≠ 1 ∨ Roles.Admin ∉ u.roles
      · refine ⟨[WriteOp.updateOp m.id], ?_, ?_⟩
        · simp only [processAdminUser, hlook, if_pos hcond, updateUserInternal]
          exact repoUpdate_log env st m.id _
        · intro op hop
          rcases List.mem_singleton.mp hop with rfl
          rfl
      · refine ⟨[], ?_, by intro op hop; cases hop⟩
        simp only [processAdminUser, hlook, if_neg hcond, List.append_nil]
  | none =>
      refine ⟨[WriteOp.createOp m.id], ?_, ?_⟩
      · simp only [processAdminUser, hlook, createUserInternal]
        exact repoCreate_log env st _
      · intro op hop
        rcases List.mem_singleton.mp hop with rfl
        rfl

/-- A step for one member leaves every other userId's records untouched. -/
theorem processAdminUser_store_frame (env : SyncEnv) (st : RunState) (m : AzureUser)
    (M : UserStore) {uid : String} (hne : uid ≠ m.id) :
    (processAdminUser env st m M).1.store.filter (fun r => r.userId == uid) =
      st.store.filter (fun r => r.userId == uid) := by
  rcases processAdminUser_store_cases env st m M with h | ⟨doc, hdid, _, _, h⟩ | h
  · rw [h]
  · rw [h, List.filter_append]
    have hd : (doc.userId == uid) = false := by
      simp [hdid]
      exact fun he => hne he.symm
    simp [hd]
  · rw [h]
    exact updateFirst_filter_ne hne (fun r _ => rfl) st.store

theorem syncFold_frame (env : SyncEnv) (M : UserStore) {uid : String} :
    ∀ (ms : List AzureUser), (∀ m ∈ ms, m.id ≠ uid) → ∀ st : RunState,
      ((ms.foldl (fun st m => (processAdminUser env st m M).1) st).log.filter
          (fun op => op.target == uid) =
        st.log.filter (fun op => op.target == uid)) ∧
      ((ms.foldl (fun st m => (processAdminUser env st m M).1) st).store.filter
          (fun r => r.userId == uid) =
        st.store.filter (fun r => r.userId == uid)) := by
  intro ms
  induction ms with
  | nil => intro h st; exact ⟨rfl, rfl⟩
  | cons m ms ih =>
      intro h st
      have hm : m.id ≠ uid := h m (List.mem_cons_self m ms)
      obtain ⟨ih1, ih2⟩ := ih (fun m' hm' => h m' (List.mem_cons_of_mem m hm'))
        (processAdminUser env st m M).1
      rw [List.foldl_cons]
      refine ⟨?_, ?_⟩
      · rw [ih1]
        obtain ⟨ops, hlog, hops⟩ := processAdminUser_log env st m M
        rw [hlog, List.filter_append]
        have : ops.filter (fun op => op.target == uid) = [] := by
          refine List.filter_eq_nil_iff.mpr ?_
          intro op hop
          simp [hops op hop]
          exact hm
        rw [this, List.append_nil]
      · rw [ih2]
        exact processAdminUser_store_frame env st m M (Ne.symm hm)

/-- C9: a reconciliation run issues no write naming a userId outside the
directory group, and every such user's records survive unchanged. -/
theorem processAllAdminUsers_frame (env : SyncEnv) (S : UserStore)
    (members : List AzureUser) (htxn : env.txnFault = false) :
    processAllAdminUsers env S members = Except.ok (syncBody env S members) ∧
    ∀ uid : String, uid ∉ members.map (fun m => m.id) →
      (syncBody env S members).log.filter (fun op => op.target == uid) = [] ∧
      (syncBody env S members).store.filter (fun r => r.userId == uid) =
        S.filter (fun r => r.userId == uid) := by
  refine ⟨by simp [processAllAdminUsers, htxn], ?_⟩
  intro uid huid
  have hall : ∀ m ∈ members, m.id ≠ uid := by
    intro m hm he
    exact huid (he ▸ List.mem_map_of_mem _ hm)
  obtain ⟨h1, h2⟩ := syncFold_frame env (buildExistingUsersMap S) members hall
    { store := S, log := [] }
  constructor
  · simpa only [syncBody, List.filter_nil] using h1
  · simpa only [syncBody] using h2

/-- C9 witness: a record outside the group keeps its roles, and no write
targets it. -/
theorem processAllAdminUsers_frame_witness :
    processAllAdminUsers { } [⟨"outside", [Roles.FormCreator],
        ["form-read", "form-edit"], none, none⟩] [⟨"u1", "Jo", "j@d"⟩] =
      Except.ok (syncBody { } [⟨"outside", [Roles.FormCreator],
        ["form-read", "form-edit"], none, none⟩] [⟨"u1", "Jo", "j@d"⟩]) ∧
    (syncBody { } [⟨"outside", [Roles.FormCreator], ["form-read", "form-edit"],
        none, none⟩] [⟨"u1", "Jo", "j@d"⟩]).log.filter
        (fun op => op.target == "outside") = [] ∧
    (syncBody { } [⟨"outside", [Roles.FormCreator], ["form-read", "form-edit"],
        none, none⟩] [⟨"u1", "Jo", "j@d"⟩]).store.filter
        (fun r => r.userId == "outside") =
      ([⟨"outside", [Roles.FormCreator], ["form-read", "form-edit"], none,
        none⟩] : UserStore).filter (fun r => r.userId == "outside") := by
  have h := processAllAdminUsers_frame { } [⟨"outside", [Roles.FormCreator],
    ["form-read", "form-edit"], none, none⟩] [⟨"u1", "Jo", "j@d"⟩] rfl
  exact ⟨h.1, (h.2 "outside" (by decide)).1, (h.2 "outside" (by decide)).2⟩

/-! ## Scheduler theorems -/

/-- C7 counterexample: a registered task whose underlying function rejects.
The rejection is caught and logged inside the stored wrapped function, so
the manual trigger does not return false: it returns true. -/
theorem triggerTask_error_counterexample :
    triggerTask ⟨[("boom-task", ⟨"* * * * *", Except.error "boom", false⟩)], false⟩
        "boom-task" = (true, true) ∧
    (triggerTask ⟨[("boom-task", ⟨"* * * * *", Except.error "boom", false⟩)], false⟩
        "boom-task").1 ≠ false := by
  constructor
  · rfl
  · intro h
    cases h

/-- C7 amended: triggerTask returns false exactly for an unknown task name;
for a registered task it returns true even when the underlying function
throws, because the stored wrapped function catches and logs the error
before triggerTask's own catch can see it. -/
theorem triggerTask_behaviour (st : SchedulerState) (name : String) :
    (st.tasks.find? (fun t => t.1 == name) = none →
      triggerTask st name = (false, false)) ∧
    (∀ p : String × TaskData, st.tasks.find? (fun t => t.1 == name) = some p →
      (triggerTask st name).1 = true) ∧
    (∀ (p : String × TaskData) (e : String),
      st.tasks.find? (fun t => t.1 == name) = some p →
      p.2.fnOutcome = Except.error e →
      triggerTask st name = (true, true)) := by
  refine ⟨?_, ?_, ?_⟩
  · intro h
    simp [triggerTask, h]
  · intro p h
    cases hout : p.2.fnOutcome with
    | ok a => simp [triggerTask, h, executeScheduledTask, hout]
    | error e => simp [triggerTask, h, executeScheduledTask, hout]
  · intro p e h hout
    simp [triggerTask, h, executeScheduledTask, hout]

/-- C7 witness: an unknown name yields false; a registered rejecting task
yields true with the error logged. -/
theorem triggerTask_behaviour_witness :
    triggerTask ⟨[], false⟩ "missing" = (false, false) ∧
    triggerTask ⟨[("t1", ⟨"* * * * *", Except.error "oops", false⟩)], false⟩ "t1" =
      (true, true) := by
  constructor
  · exact (triggerTask_behaviour ⟨[], false⟩ "missing").1 rfl
  · exact (triggerTask_behaviour ⟨[("t1", ⟨"* * * * *", Except.error "oops", false⟩)],
      false⟩ "t1").2.2 ("t1", ⟨"* * * * *", Except.error "oops", false⟩) "oops" rfl rfl

/-- C8: initialiseAdminUserSync returns null without touching the registry
when sync is disabled; when enabled it registers admin-user-sync and fires
the immediate run; when registration fails (for example the cron expression
does not validate) it throws the fatal configuration error. -/
theorem initialiseAdminUserSync_spec (env : SchedulerEnv) (cfg : SyncConfig)
    (st : SchedulerState) (syncFnOutcome : Except String Unit) :
    (cfg.adminUsersEnabled = false →
      initialiseAdminUserSync env cfg st syncFnOutcome =
        Except.ok (st, InitSyncOutcome.nullReturned)) ∧
    (cfg.adminUsersEnabled = true →
      st.tasks.any (fun t => t.1 == "admin-user-sync") = false →
      env.cronValid cfg.adminUsersCronSchedule = true →
      initialiseAdminUserSync env cfg st syncFnOutcome =
        Except.ok ({ st with tasks := st.tasks ++
            [("admin-user-sync", ⟨cfg.adminUsersCronSchedule, syncFnOutcome, false⟩)] },
          InitSyncOutcome.schedulerReturned true)) ∧
    (cfg.adminUsersEnabled = true →
      env.cronValid cfg.adminUsersCronSchedule = false →
      initialiseAdminUserSync env cfg st syncFnOutcome =
        Except.error "Failed to initialize admin user sync scheduler") := by
  refine ⟨?_, ?_, ?_⟩
  · intro h
    simp [initialiseAdminUserSync, h]
  · intro he hdup hcron
    simp [initialiseAdminUserSync, he, scheduleTask, hdup, hcron]
  · intro he hcron
    by_cases hdup : st.tasks.any (fun t => t.1 == "admin-user-sync") = true
    · simp [initialiseAdminUserSync, he, scheduleTask, hdup]
    · simp [initialiseAdminUserSync, he, scheduleTask,
        Bool.eq_false_iff.mpr hdup, hcron]

/-- C8 witness: disabled configuration returns null with the registry
untouched; an invalid cron expression makes initialisation throw; a valid
one registers the task with the immediate run fired. -/
theorem initialiseAdminUserSync_spec_witness :
    initialiseAdminUserSync ⟨fun _ => true⟩ ⟨false, "0 2 * * *"⟩ ⟨[], false⟩
        (Except.ok ()) = Except.ok (⟨[], false⟩, InitSyncOutcome.nullReturned) ∧
    initialiseAdminUserSync ⟨fun _ => false⟩ ⟨true, "not-a-cron"⟩ ⟨[], false⟩
        (Except.ok ()) = Except.error "Failed to initialize admin user sync scheduler" ∧
    initialiseAdminUserSync ⟨fun _ => true⟩ ⟨true, "0 2 * * *"⟩ ⟨[], false⟩
        (Except.ok ()) = Except.ok (⟨[("admin-user-sync",
          ⟨"0 2 * * *", Except.ok (), false⟩)], false⟩,
          InitSyncOutcome.schedulerReturned true) := by
  refine ⟨?_, ?_, ?_⟩
  · exact (initialiseAdminUserSync_spec ⟨fun _ => true⟩ ⟨false, "0 2 * * *"⟩ ⟨[], false⟩
      (Except.ok ())).1 rfl
  · exact (initialiseAdminUserSync_spec ⟨fun _ => false⟩ ⟨true, "not-a-cron"⟩ ⟨[], false⟩
      (Except.ok ())).2.2 rfl rfl
  · exact (initialiseAdminUserSync_spec ⟨fun _ => true⟩ ⟨true, "0 2 * * *"⟩ ⟨[], false⟩
      (Except.ok ())).2.1 rfl rfl rfl

end EntitlementApi
